import Mathlib

/-!
Verification development for the QualMod repository (decision making under
uncertainty with qualitative outcomes).  The repository is a set of analysis
notebooks: `ExportSubData.ipynb` extracts trial tables from MAT files,
`PriorSensCheck.ipynb` re-indexes subjects and refits models under weaker
priors, and `simulation_model_check.ipynb` simulates choice data and refits
the two candidate models on it.  This file gives a shallow embedding of the
data model and of the deterministic parts of those notebooks (random draws
and MCMC sampling are abstracted into explicit input lists and oracle
functions), and proves or refutes the specified properties.

Machine floats are modelled by exact rationals; the float power function and
the logistic function are passed as oracle parameters where they occur.
-/

set_option maxHeartbeats 1000000

set_option allowUnsafeReducibility true

attribute [semireducible] Rat.add Rat.sub Rat.mul Rat.inv Rat.ofScientific Rat.blt

/-! ## numpy / pandas primitives -/

/-- Embedding of `np.clip(x, lo, hi)`, which numpy documents as
`np.minimum(hi, np.maximum(x, lo))`. -/
def npclip (lo hi x : ℚ) : ℚ := min hi (max x lo)

/-- Embedding of `np.tile(xs, n)`: the list `xs` concatenated `n` times. -/
def nptile {α : Type} (xs : List α) (n : ℕ) : List α :=
  (List.replicate n xs).flatten

/-- Embedding of `np.repeat(xs, k)`: each element of `xs` repeated `k`
times in place. -/
def nprepeat {α : Type} (xs : List α) (k : ℕ) : List α :=
  (xs.map (fun x => List.replicate k x)).flatten

/-- Embedding of the pandas `Series.rank with method dense` of one entry `s`
of the column `col`: the number of distinct column values that are `≤ s`
(dense ranks are 1-based consecutive integers over the sorted distinct
values). -/
def denseRank {α : Type} [LinearOrder α] (col : List α) (s : α) : ℕ :=
  (col.dedup.filter (fun v => v ≤ s)).length

/-- Embedding of the `PriorSensCheck.ipynb` statement
`db[subn] = db[sub].rank(dense).astype(int) - 1`,
applied to one entry `s` of the `sub` column `col`. -/
def subnOf (col : List ℕ) (s : ℕ) : ℕ := denseRank col s - 1

/-! ## ExportSubData.ipynb: extraction of the trial tables

One MAT file per subject.  `Datamon`/`Datamed` index `[0][0][8]`, `[9]`,
`[10]` hold the design arrays (value, risk, ambiguity), `[17]` holds the
4 blocks of 21 recorded trials, and the `rt` field holds reaction times.
A malformed file is one whose block/trial array is too short, so that the
`[j][i]` indexing in the extraction loop raises. -/

/-- One recorded trial cell of `Datamon[0][0][17][j][i]`: entry `[0][0]` is
the textual choice, `[2][0]` and `[3][0]` the two displayed outcome texts. -/
structure RawTrial where
  choice : String
  outcome : String
  alt : String
deriving Repr, DecidableEq

/-- The parts of one MAT file read by the extraction loop. -/
structure MatFile where
  sub : String
  vals : List ℚ
  risk : List ℚ
  ambiguity : List ℚ
  trials : List (List RawTrial)
  rt : List ℚ
deriving Repr, DecidableEq

/-- A value of the pandas `choice` column after the `replace` calls: a
number, a missing value (`np.nan`), or a leftover string that none of the
`replace` calls matched. -/
inductive ChoiceVal where
  | num (q : ℚ)
  | nan
  | str (s : String)
deriving Repr, DecidableEq

/-- One row of the extracted trial table, with the columns built by the
extraction loop.  `value`, `risk`, `ambiguity` and `rt` come from pandas
column assignment, which aligns by index and fills missing positions with
NaN (modelled by `Option`). -/
structure Row where
  choice : ChoiceVal
  value : Option ℚ
  risk : Option ℚ
  ambiguity : Option ℚ
  sub : String
  rt : Option ℚ
  «catch» : ℚ
deriving Repr, DecidableEq

def noneStr : String := "None"

def monRefStr : String := "Reference"

def monLotStr : String := "Lottery"

def medRefStr : String := "Conservative treatment: Slight improvement"

def medLotStr : String := "Experimental treatment"

def failedChoiceStr : String := "failed choice "

/-- Embedding of the three sequential `replace` calls on the choice column:
`refS` becomes 0 (the reference option), `lotS` becomes 1 (the lottery),
the literal string None becomes NaN, and anything else is left unchanged. -/
def recode (refS lotS : String) (c : String) : ChoiceVal :=
  if c = refS then .num 0
  else if c = lotS then .num 1
  else if c = noneStr then .nan
  else .str c

/-- Embedding of the nested extraction loop
`for j in range(4): for i in range(21): choice.append(mat[...][17][j][i][0][0])`.
It returns the 84 choice strings in order, or `none` when the block/trial
indexing raises (`IndexError` on a malformed file). -/
def flatChoices (trials : List (List RawTrial)) : Option (List String) :=
  if 4 ≤ trials.length ∧ ∀ b ∈ trials.take 4, 21 ≤ b.length then
    some (((trials.take 4).map (fun b => (b.take 21).map (fun t => t.choice))).flatten)
  else none

/-- Embedding of `db.choice[db.value == 5]`: the recoded choice entries of
the rows whose `value` column entry (the design array `vals`, aligned by
index) equals 5.  `n` is the number of rows of the frame. -/
def catchColumn (column : List ChoiceVal) (vals : List ℚ) (n : ℕ) : List ChoiceVal :=
  (List.range n).filterMap
    (fun i => if vals.get? i = some 5 then some (column.getD i .nan) else none)

def typeErrorStr : String := "TypeError"

/-- Embedding of `np.nansum` over a recoded choice column: NaN entries are
summed as 0; a non-numeric entry raises (`TypeError`), modelled by an
`Except` error. -/
def nansum : List ChoiceVal → Except String ℚ
  | [] => .ok 0
  | .num q :: rest => (nansum rest).map (fun t => q + t)
  | .nan :: rest => nansum rest
  | .str _ :: _ => .error typeErrorStr

/-- The number of catch trials (rows whose value column entry is 5) on
which the subject chose the lottery, over the raw choice strings `cs` and
the design array `vals`.  This is the value `np.nansum` computes on the
recoded catch column when every choice string is recognized. -/
def lotteryCatchCount (refS lotS : String) (vals : List ℚ) (cs : List String) : ℕ :=
  ((List.range cs.length).filter
    (fun i => decide (vals.get? i = some 5 ∧ cs.getD i refS = lotS))).length

/-- Embedding of the per-subject frame construction after the trial loop:
`db = pd.DataFrame(zip(choice, value))` (84 rows), the column assignments
for value, risk, ambiguity, sub and rt, the three `replace` calls on the
choice column, and `catch = np.nansum(db.choice[db.value == 5]);`
`db[catch] = catch`.  `cs` is the list of raw choice strings returned by
the trial loop. -/
def buildRows (refS lotS : String) (m : MatFile) (cs : List String) :
    Except String (List Row) :=
  let n := cs.length
  let column := cs.map (recode refS lotS)
  match nansum (catchColumn column m.vals n) with
  | .error e => .error e
  | .ok c => .ok ((List.range n).map (fun i =>
      { choice := column.getD i .nan
        value := m.vals.get? i
        risk := m.risk.get? i
        ambiguity := m.ambiguity.get? i
        sub := m.sub
        rt := m.rt.get? i
        «catch» := c }))

/-- Extraction of one monetary MAT file: the trial loop followed by the
frame construction.  The loop body is not wrapped in try/except, so any
error propagates. -/
def monSub (m : MatFile) : Except String (List Row) :=
  match flatChoices m.trials with
  | none => .error (failedChoiceStr ++ m.sub)
  | some cs => buildRows monRefStr monLotStr m cs

/-- Embedding of the monetary extraction loop
`for mat_fname in glob(glober): ... df = pd.concat([df, db])`.
No statement of the loop body is guarded, so an exception raised for one
file aborts the whole loop and no CSV is written. -/
def monLoop : List MatFile → Except String (List Row)
  | [] => .ok []
  | m :: ms =>
    match monSub m with
    | .error e => .error e
    | .ok rows =>
      match monLoop ms with
      | .error e => .error e
      | .ok rest => .ok (rows ++ rest)

/-- Embedding of the medical extraction loop.  Only the nested trial loop
is wrapped in `try`/`except`; on an extraction error the loop prints
`failed choice <sub>` and `continue`s, so the file contributes no rows.
The later statements of the body (including the `nansum` of the catch
column) are outside the `try` block, so an error there propagates.
Returns the concatenated rows together with the printed diagnostics. -/
def medLoop : List MatFile → Except String (List Row × List String)
  | [] => .ok ([], [])
  | m :: ms =>
    match flatChoices m.trials with
    | none => (medLoop ms).map (fun rp => (rp.1, (failedChoiceStr ++ m.sub) :: rp.2))
    | some cs =>
      match buildRows medRefStr medLotStr m cs with
      | .error e => .error e
      | .ok rows => (medLoop ms).map (fun rp => (rows ++ rp.1, rp.2))

/-- pandas column assignment `db[c] = ...` at the level of column names:
a new name is appended, an existing one is overwritten in place. -/
def dfSetCol (cols : List String) (c : String) : List String :=
  if c ∈ cols then cols else cols ++ [c]

def choiceCol : String := "choice"

def valueCol : String := "value"

def riskCol : String := "risk"

def ambiguityCol : String := "ambiguity"

def subCol : String := "sub"

def rtCol : String := "rt"

def catchCol : String := "catch"

def genderCol : String := "gender"

def subnCol : String := "subn"

def levelCol : String := "level"

/-- The column names of the per-subject frame `db` of the extraction loop,
following the statement order of the notebook cell: the frame is created
with columns choice and value, then value (overwrite), risk, ambiguity and
sub are assigned, then the three `replace` calls reassign choice, then rt
and catch are assigned.  `df = pd.concat([df, db])` and `df.to_csv(...)`
preserve this column list, so it is the header of `mon.csv` and `med.csv`. -/
def extractionColumns : List String :=
  dfSetCol (dfSetCol (dfSetCol (dfSetCol (dfSetCol (dfSetCol
    (dfSetCol [choiceCol, valueCol] valueCol)
    riskCol) ambiguityCol) subCol) choiceCol) rtCol) catchCol

/-! ## simulation_model_check.ipynb: the data simulator `sim_data`

Random draws (the beta/truncated-normal attitude draws, the normal noise,
and the uniform variates behind `np.random.binomial`) are passed in as
explicit lists; the float power function and the logistic `expit` are
oracle parameters.  Each numpy array assignment of the source becomes a
named column definition. -/

/-- Embeds `value = np.tile(np.array(db.value), n_subs)`. -/
def simValue (dbValue : List ℚ) (n_subs : ℕ) : List ℚ := nptile dbValue n_subs

/-- Embeds `risk = np.tile(np.array(db.risk), n_subs)`. -/
def simRisk (dbRisk : List ℚ) (n_subs : ℕ) : List ℚ := nptile dbRisk n_subs

/-- Embeds `ambiguity = np.tile(np.array(db.ambiguity), n_subs)`. -/
def simAmb (dbAmb : List ℚ) (n_subs : ℕ) : List ℚ := nptile dbAmb n_subs

/-- Embeds `riskTol = np.repeat(α_true, len(risk) / n_subs)`, then
`riskTol += noise_dist_a`, then `riskTol = np.clip(riskTol, 0.1, 1.6)`. -/
def simRiskTolCol (dbRisk α_true noise_a : List ℚ) (n_subs : ℕ) : List ℚ :=
  (List.zipWith (fun x y => x + y)
      (nprepeat α_true ((simRisk dbRisk n_subs).length / n_subs)) noise_a).map
    (npclip (1/10) (8/5))

/-- Embeds `ambTol = np.repeat(β_true, len(ambiguity) / n_subs)`, then
`ambTol += noise_dist_b`, then `ambTol = np.clip(ambTol, -1.4, 1.4)`. -/
def simAmbTolCol (dbAmb β_true noise_b : List ℚ) (n_subs : ℕ) : List ℚ :=
  (List.zipWith (fun x y => x + y)
      (nprepeat β_true ((simAmb dbAmb n_subs).length / n_subs)) noise_b).map
    (npclip (-(7/5)) (7/5))

/-- The per-trial choice probability of the simulator:
`uRef = refValue ** riskTol` (with `refValue = 5`),
`uLotto = (value ** riskTol) * (risk - ambTol * (ambiguity / 2))`,
`p = sp.special.expit(uLotto - uRef)`. -/
def sim_p (pow : ℚ → ℚ → ℚ) (expit : ℚ → ℚ) (riskTol ambTol v r a : ℚ) : ℚ :=
  let uRef := pow 5 riskTol
  let uLotto := pow v riskTol * (r - ambTol * (a / 2))
  expit (uLotto - uRef)

/-- The probability array `p` of `sim_data`, elementwise over the columns. -/
def simPCol (pow : ℚ → ℚ → ℚ) (expit : ℚ → ℚ)
    (dbValue dbRisk dbAmb : List ℚ) (n_subs : ℕ)
    (α_true β_true noise_a noise_b : List ℚ) : List ℚ :=
  (List.range (simValue dbValue n_subs).length).map (fun i =>
    sim_p pow expit
      ((simRiskTolCol dbRisk α_true noise_a n_subs).getD i 0)
      ((simAmbTolCol dbAmb β_true noise_b n_subs).getD i 0)
      ((simValue dbValue n_subs).getD i 0)
      ((simRisk dbRisk n_subs).getD i 0)
      ((simAmb dbAmb n_subs).getD i 0))

/-- Embeds `choice = np.random.binomial(1, p, len(p))`, by inversion of a
uniform variate `u`: the draw is 1 exactly when `u < p`. -/
def simChoice (u p : ℚ) : ℕ := if u < p then 1 else 0

/-- Embeds `sub_idx = np.repeat(np.arange(n_subs), 84)` (the literal 84 is from the
source). -/
def simSubIdx (n_subs : ℕ) : List ℕ := nprepeat (List.range n_subs) 84

/-- Embeds `simdata[level] = simdata[value].rank(dense).astype(int)`,
elementwise over the value column. -/
def simLevelCol (value : List ℚ) : List ℕ := value.map (denseRank value)

/-- One row of the dataframe returned by `sim_data`. -/
structure SimRow where
  sub : ℕ
  choice : ℕ
  value : ℚ
  risk : ℚ
  ambiguity : ℚ
  riskTol : ℚ
  ambTol : ℚ
  level : ℕ
  l1 : ℕ
  l2 : ℕ
  l3 : ℕ
  l4 : ℕ
deriving Repr, DecidableEq

/-- Embedding of `sim_data`: the dataframe assembled from the columns above,
with `ID = sub_idx + 1`, the dense-rank `level` column, and the indicator
columns `lk = (simdata.level > k-1).astype(int)`. -/
def sim_data (pow : ℚ → ℚ → ℚ) (expit : ℚ → ℚ)
    (dbValue dbRisk dbAmb : List ℚ) (n_subs : ℕ)
    (α_true β_true noise_a noise_b u : List ℚ) : List SimRow :=
  let value := simValue dbValue n_subs
  let choiceColumn := List.zipWith simChoice u
    (simPCol pow expit dbValue dbRisk dbAmb n_subs α_true β_true noise_a noise_b)
  let levelColumn := simLevelCol value
  (List.range value.length).map (fun i =>
    { sub := (simSubIdx n_subs).getD i 0 + 1
      choice := choiceColumn.getD i 0
      value := value.getD i 0
      risk := (simRisk dbRisk n_subs).getD i 0
      ambiguity := (simAmb dbAmb n_subs).getD i 0
      riskTol := (simRiskTolCol dbRisk α_true noise_a n_subs).getD i 0
      ambTol := (simAmbTolCol dbAmb β_true noise_b n_subs).getD i 0
      level := levelColumn.getD i 0
      l1 := if 0 < levelColumn.getD i 0 then 1 else 0
      l2 := if 1 < levelColumn.getD i 0 then 1 else 0
      l3 := if 2 < levelColumn.getD i 0 then 1 else 0
      l4 := if 3 < levelColumn.getD i 0 then 1 else 0 })

/-! ## The model-fitting functions

`Utility`, `Utility_less_informed` (PriorSensCheck), `estimate_value` and
`estamte_values_less` build a pymc model from the dataframe and sample it.
The embedding threads the dataframe state through the function body
(every access in the source is a read: `df[...].values` and the
`observed=df[choice]` argument) and abstracts the sampled subject-level
parameter vectors into inputs, returning the final dataframe state
together with the per-trial Bernoulli probability `mu` that the model
assigns.  The variants differ only in their priors, which the embedding
abstracts, so their data transforms coincide. -/

/-- The dataframe read by the model-fitting functions: the trial table with
the choice, value, risk, ambiguity and level-indicator columns. -/
structure DataFrame where
  choice : List (Option ℚ)
  value : List ℚ
  risk : List ℚ
  ambiguity : List ℚ
  l1 : List ℚ
  l2 : List ℚ
  l3 : List ℚ
  l4 : List ℚ
deriving Repr, DecidableEq

/-- The per-trial Bernoulli probability of the `Utility` model:
`value = df[value].values ** α[idx]`,
`prob = df[risk].values - (β[idx] * (df[ambiguity].values/2))`,
`svLotto = value * prob`, `svRef = 5 ** α[idx]`,
`p = (svLotto - svRef) / γ[idx]`, `mu = pm.invlogit(p)`. -/
def utilityMuAt (pow : ℚ → ℚ → ℚ) (expit : ℚ → ℚ) (α β γ v r a : ℚ) : ℚ :=
  let value := pow v α
  let prob := r - β * (a / 2)
  let svLotto := value * prob
  let svRef := pow 5 α
  let p := (svLotto - svRef) / γ
  expit p

/-- The per-trial Bernoulli probability of the `estimate_value` model:
`val = df[l1].values * level1[idx] + ... + df[l4].values * level4[idx]`,
`prob = df[risk].values - (β[idx] * (df[ambiguity].values/2))`,
`svLotto = val * prob`, `svRef = level1[idx]`,
`p = (svLotto - svRef) / γ[idx]`, `mu = pm.invlogit(p)`. -/
def estimateMuAt (expit : ℚ → ℚ) (β γ level1 level2 level3 level4 l1 l2 l3 l4 r a : ℚ) : ℚ :=
  let val := l1 * level1 + l2 * level2 + l3 * level3 + l4 * level4
  let prob := r - β * (a / 2)
  let svLotto := val * prob
  let svRef := level1
  let p := (svLotto - svRef) / γ
  expit p

/-- The `Utility` model function of `simulation_model_check.ipynb`:
dataframe state after the call, and the per-trial `mu`. -/
def Utility (pow : ℚ → ℚ → ℚ) (expit : ℚ → ℚ) (df : DataFrame)
    (α β γ : List ℚ) (idx : List ℕ) : DataFrame × List ℚ :=
  (df, (List.range df.value.length).map (fun i =>
    utilityMuAt pow expit (α.getD (idx.getD i 0) 0) (β.getD (idx.getD i 0) 0)
      (γ.getD (idx.getD i 0) 0) (df.value.getD i 0) (df.risk.getD i 0)
      (df.ambiguity.getD i 0)))

/-- The `Utility_less_informed` model function of `PriorSensCheck.ipynb`:
identical data transforms to `Utility`, weaker hyperpriors (abstracted). -/
def Utility_less_informed (pow : ℚ → ℚ → ℚ) (expit : ℚ → ℚ) (df : DataFrame)
    (α β γ : List ℚ) (idx : List ℕ) : DataFrame × List ℚ :=
  (df, (List.range df.value.length).map (fun i =>
    utilityMuAt pow expit (α.getD (idx.getD i 0) 0) (β.getD (idx.getD i 0) 0)
      (γ.getD (idx.getD i 0) 0) (df.value.getD i 0) (df.risk.getD i 0)
      (df.ambiguity.getD i 0)))

/-- The `estimate_value` model function of `simulation_model_check.ipynb`. -/
def estimate_value (expit : ℚ → ℚ) (df : DataFrame)
    (β γ level1 level2 level3 level4 : List ℚ) (idx : List ℕ) : DataFrame × List ℚ :=
  (df, (List.range df.l1.length).map (fun i =>
    estimateMuAt expit (β.getD (idx.getD i 0) 0) (γ.getD (idx.getD i 0) 0)
      (level1.getD (idx.getD i 0) 0) (level2.getD (idx.getD i 0) 0)
      (level3.getD (idx.getD i 0) 0) (level4.getD (idx.getD i 0) 0)
      (df.l1.getD i 0) (df.l2.getD i 0) (df.l3.getD i 0) (df.l4.getD i 0)
      (df.risk.getD i 0) (df.ambiguity.getD i 0)))

/-- The `estamte_values_less` model function of `PriorSensCheck.ipynb`:
identical data transforms to `estimate_value`, weaker priors (abstracted). -/
def estamte_values_less (expit : ℚ → ℚ) (df : DataFrame)
    (β γ level1 level2 level3 level4 : List ℚ) (idx : List ℕ) : DataFrame × List ℚ :=
  (df, (List.range df.l1.length).map (fun i =>
    estimateMuAt expit (β.getD (idx.getD i 0) 0) (γ.getD (idx.getD i 0) 0)
      (level1.getD (idx.getD i 0) 0) (level2.getD (idx.getD i 0) 0)
      (level3.getD (idx.getD i 0) 0) (level4.getD (idx.getD i 0) 0)
      (df.l1.getD i 0) (df.l2.getD i 0) (df.l3.getD i 0) (df.l4.getD i 0)
      (df.risk.getD i 0) (df.ambiguity.getD i 0)))

/-! ## The simulation grid loop -/

def simFailedStr : String := "Simulation failed for N="

def andNoiseStr : String := " and noise="

def gridErrorStr : String := ". Error: "

/-- The printed message of the except branch of the grid loop. -/
def gridMsg (N : ℕ) (noise : ℚ) (e : String) : String :=
  simFailedStr ++ toString N ++ andNoiseStr ++ toString noise ++ gridErrorStr ++ e

/-- Embedding of the simulation grid loop of `simulation_model_check.ipynb`:
`for SIM in test: try: ...; results = pd.concat([results, new_row])`
`except Exception as e: print(...)`.  The whole try body (simulating,
fitting both models and `az.compare`) is abstracted into the oracle `run`;
the appending `pd.concat` is the last statement of the try block, so a
failing configuration contributes no row.  Returns the results table and
the printed failure messages. -/
def simulationGrid {Comp : Type} (run : ℕ → ℚ → Except String Comp) :
    List (ℕ × ℚ) → List (ℕ × ℚ × Comp) × List String
  | [] => ([], [])
  | c :: rest =>
    match run c.1 c.2 with
    | .ok comp =>
      ((c.1, c.2, comp) :: (simulationGrid run rest).1, (simulationGrid run rest).2)
    | .error e =>
      ((simulationGrid run rest).1, gridMsg c.1 c.2 e :: (simulationGrid run rest).2)

/-! ## Concrete inputs used by counterexamples and witnesses -/

/-- A recorded trial on which the subject chose the lottery. -/
def lotteryTrialMon : RawTrial :=
  { choice := monLotStr, outcome := noneStr, alt := noneStr }

/-- A recorded trial on which the subject chose the reference. -/
def refTrialMon : RawTrial :=
  { choice := monRefStr, outcome := noneStr, alt := noneStr }

/-- A well-formed monetary MAT file of a subject who chose the lottery on
every trial; the design has 10 catch trials (value 5) among the 84. -/
def monFileAllLottery : MatFile :=
  { sub := monLotStr
    vals := List.replicate 10 (5 : ℚ) ++ List.replicate 74 (8 : ℚ)
    risk := List.replicate 84 ((1 : ℚ)/2)
    ambiguity := List.replicate 84 (0 : ℚ)
    trials := List.replicate 4 (List.replicate 21 lotteryTrialMon)
    rt := List.replicate 84 (2 : ℚ) }

/-- A well-formed monetary MAT file of a subject who always chose the
reference. -/
def monFileGood : MatFile :=
  { sub := monRefStr
    vals := List.replicate 10 (5 : ℚ) ++ List.replicate 74 (8 : ℚ)
    risk := List.replicate 84 ((1 : ℚ)/2)
    ambiguity := List.replicate 84 (0 : ℚ)
    trials := List.replicate 4 (List.replicate 21 refTrialMon)
    rt := List.replicate 84 (2 : ℚ) }

/-- A malformed MAT file: the per-block trial array is empty, so the
`[j][i]` indexing of the extraction loop raises. -/
def matFileBad : MatFile :=
  { sub := noneStr, vals := [], risk := [], ambiguity := [],
    trials := [], rt := [] }

/-- A recorded medical trial on which the subject chose the experimental
treatment (the lottery). -/
def lotteryTrialMed : RawTrial :=
  { choice := medLotStr, outcome := noneStr, alt := noneStr }

/-- A well-formed medical MAT file. -/
def medFileGood : MatFile :=
  { sub := medLotStr
    vals := List.replicate 10 (5 : ℚ) ++ List.replicate 74 (8 : ℚ)
    risk := List.replicate 84 ((1 : ℚ)/2)
    ambiguity := List.replicate 84 (0 : ℚ)
    trials := List.replicate 4 (List.replicate 21 lotteryTrialMed)
    rt := List.replicate 84 (2 : ℚ) }

/-- A tiny raw choice list used to instantiate theorems about `buildRows`. -/
def csSmall : List String := [monLotStr, monRefStr, noneStr]

/-- A tiny MAT file matching `csSmall`: two catch trials (value 5) and one
ordinary trial. -/
def matSmall : MatFile :=
  { sub := subCol, vals := [5, 5, 8], risk := [1, 1, 1],
    ambiguity := [0, 0, 0], trials := [], rt := [] }

/-- The rows that `buildRows` produces from `matSmall` and `csSmall`:
the subject chose the lottery on one of the two catch trials, so the
catch column holds 1 on every row. -/
def rowsSmall : List Row :=
  [ { choice := .num 1, value := some 5, risk := some 1, ambiguity := some 0,
      sub := subCol, rt := none, «catch» := 1 },
    { choice := .num 0, value := some 5, risk := some 1, ambiguity := some 0,
      sub := subCol, rt := none, «catch» := 1 },
    { choice := .nan, value := some 8, risk := some 1, ambiguity := some 0,
      sub := subCol, rt := none, «catch» := 1 } ]

/-- A default row for positional access in witness statements. -/
def defaultRow : Row :=
  { choice := .nan, value := none, risk := none, ambiguity := none,
    sub := noneStr, rt := none, «catch» := 0 }

/-- A concrete stand-in for the float power function in witnesses. -/
def powEx : ℚ → ℚ → ℚ := fun x y => x + y

/-- A concrete stand-in for the logistic function in witnesses. -/
def expitEx : ℚ → ℚ := fun x => x

/-- A concrete simulated dataset: one subject, two base trials. -/
def simRowsEx : List SimRow :=
  sim_data powEx expitEx [5, 8] [1, 1] [0, 0] 1 [1] [0] [0, 0] [0, 0] [0, 0]

/-- A default simulated row for positional access in witness statements. -/
def defaultSimRow : SimRow :=
  { sub := 0, choice := 0, value := 0, risk := 0, ambiguity := 0,
    riskTol := 0, ambTol := 0, level := 0, l1 := 0, l2 := 0, l3 := 0, l4 := 0 }

/-! ## Helper lemmas on lists -/

theorem getD_mem {α : Type} (l : List α) (i : ℕ) (d : α) (h : i < l.length) :
    l.getD i d ∈ l := by
  induction l generalizing i with
  | nil => simp at h
  | cons a t ih =>
    cases i with
    | zero => simp
    | succ j =>
      simp only [List.getD_cons_succ]
      exact List.mem_cons_of_mem a (ih j (by simpa using h))

theorem getD_map {α β : Type} (f : α → β) (l : List α) (i : ℕ) (d : β) (d2 : α)
    (h : i < l.length) : (l.map f).getD i d = f (l.getD i d2) := by
  induction l generalizing i with
  | nil => simp at h
  | cons a t ih =>
    cases i with
    | zero => simp
    | succ j => simpa using ih j (by simpa using h)

theorem getD_of_le {α : Type} (l : List α) (i : ℕ) (d : α) (h : l.length ≤ i) :
    l.getD i d = d := by
  induction l generalizing i with
  | nil => simp
  | cons a t ih =>
    cases i with
    | zero => simp at h
    | succ j => simpa using ih j (by simpa using h)

theorem length_nprepeat {α : Type} (xs : List α) (k : ℕ) :
    (nprepeat xs k).length = xs.length * k := by
  induction xs with
  | nil => simp [nprepeat]
  | cons x t ih =>
    simp only [nprepeat, List.map_cons, List.flatten_cons, List.length_append,
      List.length_replicate, List.length_cons, Nat.succ_mul] at ih ⊢
    omega

theorem length_nptile {α : Type} (xs : List α) (n : ℕ) :
    (nptile xs n).length = n * xs.length := by
  induction n with
  | zero => simp [nptile]
  | succ m ih =>
    simp only [nptile, List.replicate_succ, List.flatten_cons, List.length_append,
      Nat.succ_mul] at ih ⊢
    omega

theorem npclip_le_hi (lo hi x : ℚ) : npclip lo hi x ≤ hi := min_le_left hi (max x lo)

theorem lo_le_npclip (lo hi x : ℚ) (h : lo ≤ hi) : lo ≤ npclip lo hi x :=
  le_min h (le_max_right x lo)

/-! ## Dense rank: PriorSensCheck subject re-indexing -/

theorem denseRank_eq_card {α : Type} [LinearOrder α] (col : List α) (s : α) :
    denseRank col s = (col.toFinset.filter (fun v => v ≤ s)).card := by
  classical
  unfold denseRank
  rw [← List.toFinset_card_of_nodup (col.nodup_dedup.filter _)]
  congr 1
  ext v
  simp [List.mem_filter, List.mem_dedup]

theorem denseRank_pos {α : Type} [LinearOrder α] (col : List α) (s : α) (h : s ∈ col) :
    1 ≤ denseRank col s := by
  unfold denseRank
  have hmem : s ∈ col.dedup.filter (fun v => v ≤ s) :=
    List.mem_filter.mpr ⟨List.mem_dedup.mpr h, by simp⟩
  exact List.length_pos.mpr (List.ne_nil_of_mem hmem)

theorem filter_le_insert {α : Type} [LinearOrder α] [DecidableEq α]
    (S : Finset α) (s : α) (hs : s ∈ S) :
    S.filter (fun v => v ≤ s) = insert s (S.filter (fun v => v < s)) := by
  ext v
  simp only [Finset.mem_filter, Finset.mem_insert]
  constructor
  · rintro ⟨hv, hle⟩
    rcases lt_or_eq_of_le hle with h | h
    · exact Or.inr ⟨hv, h⟩
    · exact Or.inl h
  · rintro (rfl | ⟨hv, hlt⟩)
    · exact ⟨hs, le_refl v⟩
    · exact ⟨hv, le_of_lt hlt⟩

theorem subnOf_eq_card (col : List ℕ) (s : ℕ) (hs : s ∈ col) :
    subnOf col s = (col.toFinset.filter (fun v => v < s)).card := by
  have hmem : s ∈ col.toFinset := List.mem_toFinset.mpr hs
  have h1 : denseRank col s = (col.toFinset.filter (fun v => v < s)).card + 1 := by
    rw [denseRank_eq_card, filter_le_insert col.toFinset s hmem,
      Finset.card_insert_of_not_mem (by simp)]
  unfold subnOf
  omega

theorem subnOf_strict_mono (col : List ℕ) (s1 s2 : ℕ) (h1 : s1 ∈ col) (h2 : s2 ∈ col)
    (hlt : s1 < s2) : subnOf col s1 < subnOf col s2 := by
  rw [subnOf_eq_card col s1 h1, subnOf_eq_card col s2 h2]
  apply Finset.card_lt_card
  rw [Finset.ssubset_def]
  constructor
  · intro v hv
    simp only [Finset.mem_filter] at hv ⊢
    exact ⟨hv.1, lt_trans hv.2 hlt⟩
  · intro hsub
    have hin := hsub (Finset.mem_filter.mpr ⟨List.mem_toFinset.mpr h1, hlt⟩)
    simp only [Finset.mem_filter] at hin
    exact lt_irrefl s1 hin.2

theorem subnOf_mono (col : List ℕ) (s1 s2 : ℕ) (h : s1 ≤ s2) :
    subnOf col s1 ≤ subnOf col s2 := by
  have hle : denseRank col s1 ≤ denseRank col s2 := by
    rw [denseRank_eq_card, denseRank_eq_card]
    apply Finset.card_le_card
    intro v hv
    simp only [Finset.mem_filter] at hv ⊢
    exact ⟨hv.1, le_trans hv.2 h⟩
  unfold subnOf
  omega

theorem subnOf_inj (col : List ℕ) (s1 s2 : ℕ) (h1 : s1 ∈ col) (h2 : s2 ∈ col) :
    subnOf col s1 = subnOf col s2 ↔ s1 = s2 := by
  constructor
  · intro h
    rcases lt_trichotomy s1 s2 with hlt | heq | hgt
    · exact absurd h (Nat.ne_of_lt (subnOf_strict_mono col s1 s2 h1 h2 hlt))
    · exact heq
    · exact absurd h.symm (Nat.ne_of_lt (subnOf_strict_mono col s2 s1 h2 h1 hgt))
  · intro h
    rw [h]

theorem subnOf_lt_card (col : List ℕ) (s : ℕ) (hs : s ∈ col) :
    subnOf col s < col.toFinset.card := by
  rw [subnOf_eq_card col s hs]
  have hsub : col.toFinset.filter (fun v => v < s) ⊆ col.toFinset.erase s := by
    intro v hv
    simp only [Finset.mem_filter] at hv
    exact Finset.mem_erase.mpr ⟨Nat.ne_of_lt hv.2, hv.1⟩
  have hcard := Finset.card_le_card hsub
  rw [Finset.card_erase_of_mem (List.mem_toFinset.mpr hs)] at hcard
  have hpos : 0 < col.toFinset.card :=
    Finset.card_pos.mpr ⟨s, List.mem_toFinset.mpr hs⟩
  omega

theorem list_toFinset_map {α β : Type} [DecidableEq α] [DecidableEq β]
    (f : α → β) (l : List α) : (l.map f).toFinset = l.toFinset.image f := by
  ext b
  simp

theorem subnOf_image (col : List ℕ) :
    (col.map (subnOf col)).toFinset = Finset.range col.toFinset.card := by
  classical
  rw [list_toFinset_map]
  apply Finset.eq_of_subset_of_card_le
  · intro k hk
    simp only [Finset.mem_image] at hk
    obtain ⟨s, hs, rfl⟩ := hk
    exact Finset.mem_range.mpr (subnOf_lt_card col s (List.mem_toFinset.mp hs))
  · rw [Finset.card_range, Finset.card_image_of_injOn (fun s1 hs1 s2 hs2 heq =>
      (subnOf_inj col s1 s2 (List.mem_toFinset.mp hs1) (List.mem_toFinset.mp hs2)).mp heq)]

/-- C4: the derived `subn` column is a dense re-indexing of the participant
identifier: over any `sub` column, the set of `subn` values is exactly
`{0, ..., m-1}` where `m` is the number of distinct `sub` values, two rows
get the same `subn` iff they have the same `sub`, and the mapping preserves
the order of `sub`. -/
theorem subn_dense_reindexing (col : List ℕ) :
    ((col.map (subnOf col)).toFinset = Finset.range col.toFinset.card)
    ∧ (∀ s1 ∈ col, ∀ s2 ∈ col, (subnOf col s1 = subnOf col s2 ↔ s1 = s2))
    ∧ (∀ s1 s2 : ℕ, s1 ≤ s2 → subnOf col s1 ≤ subnOf col s2) :=
  ⟨subnOf_image col,
   fun s1 h1 s2 h2 => subnOf_inj col s1 s2 h1 h2,
   fun s1 s2 h => subnOf_mono col s1 s2 h⟩

/-- Witness for C4 on the concrete sub column `[7, 3, 7, 10]`. -/
theorem subn_dense_reindexing_witness :
    (subnOf [7, 3, 7, 10] 3 = subnOf [7, 3, 7, 10] 7 ↔ 3 = 7)
    ∧ subnOf [7, 3, 7, 10] 3 ≤ subnOf [7, 3, 7, 10] 10 :=
  ⟨(subn_dense_reindexing [7, 3, 7, 10]).2.1 3 (by decide) 7 (by decide),
   (subn_dense_reindexing [7, 3, 7, 10]).2.2 3 10 (by decide)⟩

/-! ## Lemmas on the recoding and the simulator columns -/

theorem recode_cases (refS lotS s : String) (h : s ∈ [refS, lotS, noneStr]) :
    recode refS lotS s = .num 0 ∨ recode refS lotS s = .num 1
    ∨ recode refS lotS s = .nan := by
  by_cases h1 : s = refS
  · left
    simp [recode, h1]
  · by_cases h2 : s = lotS
    · subst h2
      right
      left
      simp [recode, h1]
    · have h3 : s = noneStr := by
        simp only [List.mem_cons, List.not_mem_nil, or_false] at h
        tauto
      subst h3
      right
      right
      simp [recode, h1, h2]

theorem simChoice_col_getD (u p : List ℚ) (i : ℕ) :
    (List.zipWith simChoice u p).getD i 0 = 0
    ∨ (List.zipWith simChoice u p).getD i 0 = 1 := by
  induction u generalizing p i with
  | nil => simp
  | cons a t ih =>
    cases p with
    | nil => simp
    | cons b q =>
      cases i with
      | zero =>
        simp only [List.zipWith_cons_cons, List.getD_cons_zero]
        unfold simChoice
        split
        · right
          rfl
        · left
          rfl
      | succ j => simpa using ih q j

theorem map_npclip_getD_bounds (lo hi : ℚ) (h : lo ≤ hi) (l : List ℚ) (i : ℕ)
    (hlen : i < l.length) :
    lo ≤ (l.map (npclip lo hi)).getD i 0 ∧ (l.map (npclip lo hi)).getD i 0 ≤ hi := by
  rw [getD_map (npclip lo hi) l i 0 0 hlen]
  exact ⟨lo_le_npclip lo hi _ h, npclip_le_hi lo hi _⟩

theorem simRiskTolCol_length (dbRisk α_true noise_a : List ℚ) (n_subs : ℕ)
    (hpos : 0 < n_subs) (hα : α_true.length = n_subs) :
    (simRiskTolCol dbRisk α_true noise_a n_subs).length
      = min (n_subs * dbRisk.length) noise_a.length := by
  unfold simRiskTolCol
  rw [List.length_map, List.length_zipWith, length_nprepeat, hα]
  unfold simRisk
  rw [length_nptile, Nat.mul_div_cancel_left _ hpos]

theorem simAmbTolCol_length (dbAmb β_true noise_b : List ℚ) (n_subs : ℕ)
    (hpos : 0 < n_subs) (hβ : β_true.length = n_subs) :
    (simAmbTolCol dbAmb β_true noise_b n_subs).length
      = min (n_subs * dbAmb.length) noise_b.length := by
  unfold simAmbTolCol
  rw [List.length_map, List.length_zipWith, length_nprepeat, hβ]
  unfold simAmb
  rw [length_nptile, Nat.mul_div_cancel_left _ hpos]

/-- C2: in every dataset returned by `sim_data`, the level indicators are
monotonically cumulative: for each k in 1..4 the indicator `lk` is 1 exactly
when the level of the row is at least k (and 0 otherwise), and the level is
always at least 1, so level k implies the indicators 1..k are set and the
indicators k+1..4 are 0. -/
theorem sim_level_indicators_cumulative (pow : ℚ → ℚ → ℚ) (expit : ℚ → ℚ)
    (dbValue dbRisk dbAmb : List ℚ) (n_subs : ℕ)
    (α_true β_true noise_a noise_b u : List ℚ) :
    ∀ row ∈ sim_data pow expit dbValue dbRisk dbAmb n_subs α_true β_true noise_a noise_b u,
      1 ≤ row.level
      ∧ row.l1 = (if 1 ≤ row.level then 1 else 0)
      ∧ row.l2 = (if 2 ≤ row.level then 1 else 0)
      ∧ row.l3 = (if 3 ≤ row.level then 1 else 0)
      ∧ row.l4 = (if 4 ≤ row.level then 1 else 0) := by
  intro row hrow
  simp only [sim_data, List.mem_map, List.mem_range] at hrow
  obtain ⟨i, hi, rfl⟩ := hrow
  dsimp only
  have hlev : (simLevelCol (simValue dbValue n_subs)).getD i 0
      = denseRank (simValue dbValue n_subs) ((simValue dbValue n_subs).getD i 0) :=
    getD_map (denseRank (simValue dbValue n_subs)) (simValue dbValue n_subs) i 0 0 hi
  have hpos : 1 ≤ (simLevelCol (simValue dbValue n_subs)).getD i 0 := by
    rw [hlev]
    exact denseRank_pos _ _ (getD_mem (simValue dbValue n_subs) i 0 hi)
  refine ⟨hpos, ?_, ?_, ?_, ?_⟩ <;> (split_ifs with h <;> omega)

/-- Witness for C2 on a concrete call of `sim_data`. -/
theorem sim_level_indicators_cumulative_witness :
    1 ≤ (simRowsEx.getD 0 defaultSimRow).level
    ∧ (simRowsEx.getD 0 defaultSimRow).l1
        = (if 1 ≤ (simRowsEx.getD 0 defaultSimRow).level then 1 else 0)
    ∧ (simRowsEx.getD 0 defaultSimRow).l2
        = (if 2 ≤ (simRowsEx.getD 0 defaultSimRow).level then 1 else 0)
    ∧ (simRowsEx.getD 0 defaultSimRow).l3
        = (if 3 ≤ (simRowsEx.getD 0 defaultSimRow).level then 1 else 0)
    ∧ (simRowsEx.getD 0 defaultSimRow).l4
        = (if 4 ≤ (simRowsEx.getD 0 defaultSimRow).level then 1 else 0) :=
  sim_level_indicators_cumulative powEx expitEx [5, 8] [1, 1] [0, 0] 1 [1] [0]
    [0, 0] [0, 0] [0, 0] (simRowsEx.getD 0 defaultSimRow) (by decide)

/-- C9: every row of a dataset returned by `sim_data` satisfies the attitude
bounds: the per-trial risk attitude `riskTol` lies in [0.1, 1.6] and the
ambiguity attitude `ambTol` lies in [-1.4, 1.4], for any noise inputs of the
matching shape. -/
theorem sim_attitude_bounds (pow : ℚ → ℚ → ℚ) (expit : ℚ → ℚ)
    (dbValue dbRisk dbAmb : List ℚ) (n_subs : ℕ)
    (α_true β_true noise_a noise_b u : List ℚ)
    (hr : dbRisk.length = dbValue.length) (ha : dbAmb.length = dbValue.length)
    (hα : α_true.length = n_subs) (hβ : β_true.length = n_subs)
    (hna : noise_a.length = n_subs * dbValue.length)
    (hnb : noise_b.length = n_subs * dbValue.length) :
    ∀ row ∈ sim_data pow expit dbValue dbRisk dbAmb n_subs α_true β_true noise_a noise_b u,
      1/10 ≤ row.riskTol ∧ row.riskTol ≤ 8/5
      ∧ -(7/5) ≤ row.ambTol ∧ row.ambTol ≤ 7/5 := by
  intro row hrow
  simp only [sim_data, List.mem_map, List.mem_range] at hrow
  obtain ⟨i, hi, rfl⟩ := hrow
  dsimp only
  rcases Nat.eq_zero_or_pos n_subs with h0 | hpos
  · rw [h0] at hi
    unfold simValue at hi
    rw [length_nptile] at hi
    omega
  have hival : i < n_subs * dbValue.length := by
    unfold simValue at hi
    rwa [length_nptile] at hi
  have hrl : i < ((List.zipWith (fun x y => x + y)
      (nprepeat α_true ((simRisk dbRisk n_subs).length / n_subs)) noise_a)).length := by
    have := simRiskTolCol_length dbRisk α_true noise_a n_subs hpos hα
    unfold simRiskTolCol at this
    rw [List.length_map] at this
    rw [this, hr, hna]
    omega
  have hal : i < ((List.zipWith (fun x y => x + y)
      (nprepeat β_true ((simAmb dbAmb n_subs).length / n_subs)) noise_b)).length := by
    have := simAmbTolCol_length dbAmb β_true noise_b n_subs hpos hβ
    unfold simAmbTolCol at this
    rw [List.length_map] at this
    rw [this, ha, hnb]
    omega
  have hriskb := map_npclip_getD_bounds (1/10) (8/5) (by norm_num) _ i hrl
  have hambb := map_npclip_getD_bounds (-(7/5)) (7/5) (by norm_num) _ i hal
  unfold simRiskTolCol simAmbTolCol
  exact ⟨hriskb.1, hriskb.2, hambb.1, hambb.2⟩

/-- Witness for C9 on a concrete call of `sim_data`. -/
theorem sim_attitude_bounds_witness :
    1/10 ≤ (simRowsEx.getD 0 defaultSimRow).riskTol
    ∧ (simRowsEx.getD 0 defaultSimRow).riskTol ≤ 8/5
    ∧ -(7/5) ≤ (simRowsEx.getD 0 defaultSimRow).ambTol
    ∧ (simRowsEx.getD 0 defaultSimRow).ambTol ≤ 7/5 :=
  sim_attitude_bounds powEx expitEx [5, 8] [1, 1] [0, 0] 1 [1] [0] [0, 0] [0, 0]
    [0, 0] rfl rfl rfl rfl rfl rfl (simRowsEx.getD 0 defaultSimRow) (by decide)

/-- C8: the simulator and the fitted `Utility` model agree on the choice
rule: at inverse temperature γ = 1 and matching (α, β), the per-trial
Bernoulli probability of the `Utility` model equals the probability with
which `sim_data` draws choice 1, and that probability is the logistic of
`value^α * (risk - β*ambiguity/2) - 5^α`. -/
theorem sim_utility_choice_rule (pow : ℚ → ℚ → ℚ) (expit : ℚ → ℚ)
    (α β γ v r a : ℚ) (hγ : γ = 1) :
    utilityMuAt pow expit α β γ v r a = sim_p pow expit α β v r a
    ∧ sim_p pow expit α β v r a
        = expit (pow v α * (r - β * (a / 2)) - pow 5 α) := by
  subst hγ
  constructor
  · simp only [utilityMuAt, sim_p, div_one]
  · rfl

/-- Witness for C8 at a concrete parameter point with γ = 1. -/
theorem sim_utility_choice_rule_witness :
    utilityMuAt powEx expitEx 2 3 1 4 5 6 = sim_p powEx expitEx 2 3 4 5 6 :=
  (sim_utility_choice_rule powEx expitEx 2 3 1 4 5 6 rfl).1

/-- C6: model fitting treats the trial table as an immutable input: for every
input dataframe, after `Utility`, `Utility_less_informed`, `estimate_value`
or `estamte_values_less` returns, the dataframe is unchanged (every access
of the source body is a read; the embedding threads the frame state through
the body and returns it). -/
theorem model_fitting_immutable (pow : ℚ → ℚ → ℚ) (expit : ℚ → ℚ)
    (df : DataFrame) (α β γ level1 level2 level3 level4 : List ℚ) (idx : List ℕ) :
    (Utility pow expit df α β γ idx).1 = df
    ∧ (Utility_less_informed pow expit df α β γ idx).1 = df
    ∧ (estimate_value expit df β γ level1 level2 level3 level4 idx).1 = df
    ∧ (estamte_values_less expit df β γ level1 level2 level3 level4 idx).1 = df :=
  ⟨rfl, rfl, rfl, rfl⟩

/-! ## The catch column is a per-subject count -/

theorem nansum_catch_count (refS lotS : String) (hne : refS ≠ lotS)
    (vals : List ℚ) (cs : List String)
    (hrec : ∀ s ∈ cs, s ∈ [refS, lotS, noneStr]) (idxs : List ℕ) :
    nansum (idxs.filterMap (fun i =>
        if vals.get? i = some 5 then some ((cs.map (recode refS lotS)).getD i .nan)
        else none))
      = .ok (((idxs.filter (fun i =>
          decide (vals.get? i = some 5 ∧ cs.getD i refS = lotS))).length : ℚ)) := by
  induction idxs with
  | nil => simp [nansum]
  | cons i rest ih =>
    rw [List.filterMap_cons]
    by_cases hv : vals.get? i = some 5
    · rw [if_pos hv]
      rcases Nat.lt_or_ge i cs.length with hi | hi
      · have hgd : (cs.map (recode refS lotS)).getD i .nan
            = recode refS lotS (cs.getD i refS) :=
          getD_map (recode refS lotS) cs i .nan refS hi
        have hmem : cs.getD i refS ∈ cs := getD_mem cs i refS hi
        by_cases h1 : cs.getD i refS = refS
        · have hrc : (cs.map (recode refS lotS)).getD i .nan = .num 0 := by
            rw [hgd, h1]
            simp [recode]
          have hcnt : ¬(vals.get? i = some 5 ∧ cs.getD i refS = lotS) := by
            rintro ⟨_, hL⟩
            exact hne (h1.symm.trans hL)
          rw [hrc]
          simp only [nansum, ih, Except.map, zero_add]
          rw [List.filter_cons_of_neg (by simpa using hcnt)]
        · by_cases h2 : cs.getD i refS = lotS
          · have hrc : (cs.map (recode refS lotS)).getD i .nan = .num 1 := by
              rw [hgd, h2]
              simp [recode, Ne.symm hne]
            have hcnt : vals.get? i = some 5 ∧ cs.getD i refS = lotS := ⟨hv, h2⟩
            rw [hrc]
            simp only [nansum, ih, Except.map]
            rw [List.filter_cons_of_pos (by simpa using hcnt), List.length_cons]
            congr 1
            push_cast
            ring
          · have h3 : cs.getD i refS = noneStr := by
              have hh := hrec _ hmem
              simp only [List.mem_cons, List.not_mem_nil, or_false] at hh
              tauto
            rw [h3] at h1 h2
            have hrc : (cs.map (recode refS lotS)).getD i .nan = .nan := by
              rw [hgd, h3]
              simp [recode, h1, h2]
            have hcnt : ¬(vals.get? i = some 5 ∧ cs.getD i refS = lotS) := by
              rintro ⟨_, hL⟩
              rw [h3] at hL
              exact h2 hL
            rw [hrc]
            simp only [nansum, ih]
            rw [List.filter_cons_of_neg (by simpa using hcnt)]
      · have hrc : (cs.map (recode refS lotS)).getD i .nan = .nan :=
          getD_of_le (cs.map (recode refS lotS)) i .nan
            (by rw [List.length_map]; exact hi)
        have hcnt : ¬(vals.get? i = some 5 ∧ cs.getD i refS = lotS) := by
          rintro ⟨_, hL⟩
          rw [getD_of_le cs i refS hi] at hL
          exact hne hL
        rw [hrc]
        simp only [nansum, ih]
        rw [List.filter_cons_of_neg (by simpa using hcnt)]
    · rw [if_neg hv]
      have hcnt : ¬(vals.get? i = some 5 ∧ cs.getD i refS = lotS) := by
        rintro ⟨h5, _⟩
        exact hv h5
      rw [ih, List.filter_cons_of_neg (by simpa using hcnt)]

theorem buildRows_ok (refS lotS : String) (hne : refS ≠ lotS) (m : MatFile)
    (cs : List String) (hrec : ∀ s ∈ cs, s ∈ [refS, lotS, noneStr]) :
    buildRows refS lotS m cs = .ok ((List.range cs.length).map (fun i =>
      { choice := (cs.map (recode refS lotS)).getD i .nan
        value := m.vals.get? i
        risk := m.risk.get? i
        ambiguity := m.ambiguity.get? i
        sub := m.sub
        rt := m.rt.get? i
        «catch» := (lotteryCatchCount refS lotS m.vals cs : ℚ) })) := by
  have hsum := nansum_catch_count refS lotS hne m.vals cs hrec (List.range cs.length)
  simp only [buildRows, catchColumn]
  rw [hsum]
  rfl

/-- C1 counterexample: on a concrete well-formed monetary MAT file of a
subject who always chose the lottery, every extracted row carries
catch = 10 (the count over the ten catch trials), so the catch field of a
row is not a 0/1 flag. -/
theorem catch_not_binary_counterexample :
    (monSub monFileAllLottery).map
        (fun rows => rows.all (fun r => r.«catch» == 0 || r.«catch» == 1)) = .ok false
    ∧ (monSub monFileAllLottery).map
        (fun rows => rows.all (fun r => r.«catch» == 10)) = .ok true := by
  constructor
  · rfl
  · rfl

/-- C1 amended: the catch field of every extracted row is the per-subject
count of lottery choices over the catch trials (rows with value 5), the
same value on every row of the subject, rather than a per-trial 0/1
indicator. -/
theorem catch_is_subject_count (refS lotS : String) (m : MatFile)
    (cs : List String) (rows : List Row) (hne : refS ≠ lotS)
    (hrec : ∀ s ∈ cs, s ∈ [refS, lotS, noneStr])
    (hok : buildRows refS lotS m cs = .ok rows) :
    ∀ r ∈ rows, r.«catch» = (lotteryCatchCount refS lotS m.vals cs : ℚ) := by
  rw [buildRows_ok refS lotS hne m cs hrec] at hok
  have hrows := Except.ok.inj hok
  intro r hr
  rw [← hrows] at hr
  simp only [List.mem_map, List.mem_range] at hr
  obtain ⟨i, hi, rfl⟩ := hr
  rfl

/-- Witness for the amended C1 on a small concrete extraction. -/
theorem catch_is_subject_count_witness :
    (rowsSmall.getD 0 defaultRow).«catch»
      = (lotteryCatchCount monRefStr monLotStr matSmall.vals csSmall : ℚ) :=
  catch_is_subject_count monRefStr monLotStr matSmall csSmall rowsSmall
    (by decide) (by decide) (by rfl) (rowsSmall.getD 0 defaultRow) (by decide)

/-- C3: after the choice-recoding step, every value of the choice column is
0, 1 or NaN (given that the raw choice strings are among the two option
strings and the literal None), and every choice produced by `sim_data` is
0 or 1. -/
theorem choice_codes (refS lotS : String) (m : MatFile) (cs : List String)
    (rows : List Row) (hne : refS ≠ lotS)
    (hrec : ∀ s ∈ cs, s ∈ [refS, lotS, noneStr])
    (hok : buildRows refS lotS m cs = .ok rows) :
    (∀ r ∈ rows, r.choice = .num 0 ∨ r.choice = .num 1 ∨ r.choice = .nan)
    ∧ (∀ (pow : ℚ → ℚ → ℚ) (expit : ℚ → ℚ) (dbValue dbRisk dbAmb : List ℚ)
        (n_subs : ℕ) (α_true β_true noise_a noise_b u : List ℚ),
        ∀ row ∈ sim_data pow expit dbValue dbRisk dbAmb n_subs α_true β_true
            noise_a noise_b u,
          row.choice = 0 ∨ row.choice = 1) := by
  constructor
  · rw [buildRows_ok refS lotS hne m cs hrec] at hok
    have hrows := Except.ok.inj hok
    intro r hr
    rw [← hrows] at hr
    simp only [List.mem_map, List.mem_range] at hr
    obtain ⟨i, hi, rfl⟩ := hr
    have hgd : (cs.map (recode refS lotS)).getD i .nan
        = recode refS lotS (cs.getD i refS) :=
      getD_map (recode refS lotS) cs i .nan refS hi
    dsimp only
    rw [hgd]
    exact recode_cases refS lotS _ (hrec _ (getD_mem cs i refS hi))
  · intro pow expit dbValue dbRisk dbAmb n_subs α_true β_true noise_a noise_b u row hrow
    simp only [sim_data, List.mem_map, List.mem_range] at hrow
    obtain ⟨i, hi, rfl⟩ := hrow
    dsimp only
    exact simChoice_col_getD u _ i

/-- Witness for C3 on a small concrete extraction. -/
theorem choice_codes_witness :
    (rowsSmall.getD 0 defaultRow).choice = .num 0
    ∨ (rowsSmall.getD 0 defaultRow).choice = .num 1
    ∨ (rowsSmall.getD 0 defaultRow).choice = .nan :=
  (choice_codes monRefStr monLotStr matSmall csSmall rowsSmall (by decide)
    (by decide) (by rfl)).1 (rowsSmall.getD 0 defaultRow) (by decide)

/-! ## Error handling in the extraction loops -/

/-- C5 counterexample: in the monetary extraction loop a malformed file is
not skipped: with a malformed file followed by a well-formed one the whole
extraction aborts (no rows at all), while the well-formed file alone
extracts fine. -/
theorem malformed_not_skipped_counterexample :
    (monLoop [matFileBad, monFileGood]).isOk = false
    ∧ (monLoop [monFileGood]).isOk = true := by
  constructor
  · rfl
  · rfl

/-- C5 amended: in the medical extraction loop, every file whose trial
extraction raises is skipped: the diagnostic `failed choice <sub>` is
printed, the file contributes no rows, and the remaining files are all
processed (assuming their choice strings are the recognized ones, so that
the unguarded later statements do not raise). -/
theorem medLoop_skips_malformed (files : List MatFile)
    (h : ∀ m ∈ files, ∀ s ∈ (flatChoices m.trials).getD [], s ∈ [medRefStr, medLotStr, noneStr]) :
    medLoop files = .ok
      ((files.filterMap (fun m => (flatChoices m.trials).bind
          (fun cs => (buildRows medRefStr medLotStr m cs).toOption))).flatten,
       (files.filter (fun m => (flatChoices m.trials).isNone)).map
          (fun m => failedChoiceStr ++ m.sub)) := by
  induction files with
  | nil => rfl
  | cons m ms ih =>
    have hm := h m (List.mem_cons_self m ms)
    have hms : ∀ m2 ∈ ms, ∀ s ∈ (flatChoices m2.trials).getD [],
        s ∈ [medRefStr, medLotStr, noneStr] :=
      fun m2 hm2 => h m2 (List.mem_cons_of_mem m hm2)
    rcases hfc : flatChoices m.trials with _ | cs
    · simp only [medLoop, hfc, List.filterMap_cons, List.filter_cons, Option.bind,
        Option.isNone, ih hms, Except.map, List.map_cons, if_pos]
    · rw [hfc] at hm
      have hcs : ∀ s ∈ cs, s ∈ [medRefStr, medLotStr, noneStr] := by
        simpa using hm
      have hbr := buildRows_ok medRefStr medLotStr (by decide) m cs hcs
      simp only [medLoop, hfc, hbr, List.filterMap_cons, List.filter_cons, Option.bind,
        Option.isNone, Except.toOption, ih hms, Except.map, List.flatten_cons]
      rfl

/-- Witness for the amended C5: one malformed and one well-formed medical
file; the malformed file is skipped with its diagnostic and the well-formed
file contributes its rows. -/
theorem medLoop_skips_malformed_witness :
    medLoop [matFileBad, medFileGood] = .ok
      ((([matFileBad, medFileGood].filterMap (fun m => (flatChoices m.trials).bind
          (fun cs => (buildRows medRefStr medLotStr m cs).toOption))).flatten),
       (([matFileBad, medFileGood].filter (fun m => (flatChoices m.trials).isNone)).map
          (fun m => failedChoiceStr ++ m.sub))) :=
  medLoop_skips_malformed [matFileBad, medFileGood] (by decide)

/-- C7 counterexample: the frame written by the extraction stage has no
gender, subn or level column, so the CSV written by `df.to_csv` lacks part
of the documented column list. -/
theorem extraction_columns_counterexample :
    genderCol ∉ extractionColumns ∧ subnCol ∉ extractionColumns
    ∧ levelCol ∉ extractionColumns := by
  decide

/-- C7 amended: the CSV files written by the extraction stage have exactly
the columns choice, value, risk, ambiguity, sub, rt and catch; the
remaining documented columns are added by the later cleaning stage. -/
theorem extraction_columns_exact :
    extractionColumns
      = [choiceCol, valueCol, riskCol, ambiguityCol, subCol, rtCol, catchCol] := by
  decide

/-- C10: the simulation grid loop isolates failures: a failing
configuration prints its message and contributes no row to the results
table while the remaining configurations are still processed, and each
succeeding configuration appends exactly one row, in order. -/
theorem simulation_grid_isolation {Comp : Type} (run : ℕ → ℚ → Except String Comp)
    (test : List (ℕ × ℚ)) :
    (simulationGrid run test).1
      = test.filterMap (fun c => (run c.1 c.2).toOption.map (fun comp => (c.1, c.2, comp)))
    ∧ (simulationGrid run test).2
      = test.filterMap (fun c =>
          match run c.1 c.2 with
          | .ok _ => none
          | .error e => some (gridMsg c.1 c.2 e)) := by
  induction test with
  | nil => exact ⟨rfl, rfl⟩
  | cons c rest ih =>
    rcases hr : run c.1 c.2 with e | comp
    · constructor
      · simp only [simulationGrid, hr, List.filterMap_cons, Except.toOption, ih.1]
        rfl
      · simp only [simulationGrid, hr, List.filterMap_cons, ih.2]
    · constructor
      · simp only [simulationGrid, hr, List.filterMap_cons, Except.toOption, ih.1]
        rfl
      · simp only [simulationGrid, hr, List.filterMap_cons, ih.2]
